import Mathlib

/-!
# Project-Camp backend: RBAC and transactional-consistency layer, shallow embedding

This file embeds the data model and the operations of the Project-Camp
backend (mongoose models, express controllers and auth middleware) as
executable Lean definitions and proves the specified properties about them.

Collections are embedded as lists of records; document ids are the hex
strings MongoDB uses. A multi-document transaction is embedded as a
function building a candidate state from a working copy: the new state is
published only when every write succeeded, otherwise the original state is
kept (commit/abort). Storage-layer write failures are injected through
explicit fault parameters.
-/

namespace ProjectCamp

/-- Project-level roles: the `role` enum of projectMember.models.js. -/
inductive Role
  | admin
  | project_admin
  | member
deriving DecidableEq, Repr

/-- String form of a project role, as stored in the document. -/
def Role.toStr : Role → String
  | .admin => "admin"
  | .project_admin => "project_admin"
  | .member => "member"

/-- Parse a role string; `none` for unrecognized values. -/
def Role.ofString? (s : String) : Option Role :=
  if s = "admin" then some .admin
  else if s = "project_admin" then some .project_admin
  else if s = "member" then some .member
  else none

/-- The `validRoles` array checked by addProjectMember / updateProjectMemberRole. -/
def validRoles : List String := ["admin", "project_admin", "member"]

/-- ASCII lower-casing of one character (JS String.prototype.toLowerCase on
the character range this system stores). -/
def lowerChar (c : Char) : Char :=
  if c.toNat ≥ 65 && c.toNat ≤ 90 then Char.ofNat (c.toNat + 32) else c

/-- `email.toLowerCase()`. -/
def toLowerStr (s : String) : String := ⟨s.data.map lowerChar⟩

/-- Whitespace as trimmed by JS String.prototype.trim. -/
def isSpaceChar (c : Char) : Bool :=
  c == ' ' || c == '\t' || c == '\n' || c == '\r'

/-- Drop leading whitespace from a character list. -/
def dropLeadingSpace : List Char → List Char
  | [] => []
  | c :: cs => if isSpaceChar c then dropLeadingSpace cs else c :: cs

/-- `s.trim()`: drop whitespace at both ends. -/
def trimStr (s : String) : String :=
  ⟨(dropLeadingSpace (dropLeadingSpace s.data.reverse).reverse)⟩

/-- A user record of the Identity Store (user.models.js), restricted to the
fields the RBAC layer reads. `role` is the system-level role. -/
structure User where
  id : String
  email : String
  username : String
  role : Option String
deriving DecidableEq, Repr

/-- A project document (project.models.js). -/
structure Project where
  id : String
  name : String
  description : String
  owner : String
deriving DecidableEq, Repr

/-- A project-membership document (projectMember.models.js). `version` is the
mongoose optimistic-concurrency version key. -/
structure ProjectMember where
  id : String
  project : String
  user : String
  role : Role
  joinedAt : Nat
  addedBy : String
  version : Nat
deriving DecidableEq, Repr

/-- A task document (task.models.js), restricted to the fields this layer reads. -/
structure Task where
  id : String
  project : String
  title : String
  description : String
  assignee : Option String
  status : String
  createdBy : String
deriving DecidableEq, Repr

/-- A subtask document (subtask.models.js). -/
structure Subtask where
  id : String
  task : String
  title : String
  description : String
  isCompleted : Bool
  createdBy : String
deriving DecidableEq, Repr

/-- A note document (note.models.js). -/
structure Note where
  id : String
  project : String
  title : String
  content : String
  createdBy : String
deriving DecidableEq, Repr

/-- The document store: one list per collection. -/
structure Db where
  users : List User
  projects : List Project
  members : List ProjectMember
  tasks : List Task
  subtasks : List Subtask
  notes : List Note
deriving DecidableEq, Repr

/-- `Project.findById(pid)`. -/
def Db.findProject (db : Db) (pid : String) : Option Project :=
  db.projects.find? (fun p => p.id == pid)

/-- `ProjectMember.findOne({ project: pid, user: uid })`. -/
def Db.findMembership (db : Db) (pid uid : String) : Option ProjectMember :=
  db.members.find? (fun m => m.project == pid && m.user == uid)

/-- `User.findOne({ email })`. -/
def Db.findUserByEmail (db : Db) (email : String) : Option User :=
  db.users.find? (fun u => u.email == email)

/-- `Subtask.findById(sid)`. -/
def Db.findSubtask (db : Db) (sid : String) : Option Subtask :=
  db.subtasks.find? (fun s => s.id == sid)

/-- `Task.findById(tid)` (the `populate('task')` lookup of updateSubtask). -/
def Db.findTask (db : Db) (tid : String) : Option Task :=
  db.tasks.find? (fun t => t.id == tid)

/-- `Note.findOne({ _id: nid, project: pid })`. -/
def Db.findNote (db : Db) (nid pid : String) : Option Note :=
  db.notes.find? (fun n => n.id == nid && n.project == pid)

/-! ## Retry handler (retry-handler.js) -/

/-- The shape of a storage-layer error as inspected by the retry classifier:
`name`, numeric `code`, and the `errorLabels` array. -/
structure JsError where
  name : String
  code : Option Int
  errorLabels : List String
deriving DecidableEq, Repr

/-- The default `shouldRetry` classifier of `retryOperation`: version
conflicts, duplicate keys (11000), write conflicts (112), and the
TransientTransactionError label are retryable; nothing else is. -/
def shouldRetryDefault (e : JsError) : Bool :=
  e.name == "VersionError" || e.code == some 11000 || e.code == some 112 ||
    e.errorLabels.contains "TransientTransactionError"

/-- The attempt loop of `retryOperation`. The operation is indexed by its
attempt number; the second component of the result counts how many times the
operation was invoked. `remaining` is `maxRetries - attempt`: when it is 0
this is the final attempt and any error is thrown. -/
def retryGo {α : Type} (op : Nat → Except JsError α) (shouldRetry : JsError → Bool)
    (attempt : Nat) : Nat → Except JsError α × Nat
  | 0 => (op attempt, 1)
  | remaining + 1 =>
    match op attempt with
    | .ok a => (.ok a, 1)
    | .error e =>
      if shouldRetry e then
        let r := retryGo op shouldRetry (attempt + 1) remaining
        (r.1, r.2 + 1)
      else (.error e, 1)

/-- `retryOperation(operation, { maxRetries, shouldRetry })`: run the attempt
loop from attempt 0. Returns the final outcome together with the number of
invocations of the operation. -/
def retryOperation {α : Type} (op : Nat → Except JsError α)
    (maxRetries : Nat) (shouldRetry : JsError → Bool) : Except JsError α × Nat :=
  retryGo op shouldRetry 0 maxRetries

/-- Default `maxRetries` of retry-handler.js. -/
def defaultMaxRetries : Nat := 3

/-! ## Project deletion cascade (deleteProject, project controller) -/

/-- Ids of the project's tasks, read at the start of the delete transaction. -/
def taskIdsOf (db : Db) (pid : String) : List String :=
  (db.tasks.filter (fun t => t.project == pid)).map Task.id

/-- The five deletion steps of the cascade, as data. -/
inductive CascadeStep
  | subtasksOfTasks
  | tasksOfProject
  | notesOfProject
  | membersOfProject
  | projectItself
deriving DecidableEq, Repr

/-- The order in which deleteProject issues its deletions. -/
def cascadeOrder : List CascadeStep :=
  [.subtasksOfTasks, .tasksOfProject, .notesOfProject, .membersOfProject, .projectItself]

/-- Effect of one cascade step on the working copy of the store. -/
def applyCascadeStep (pid : String) (taskIds : List String) (db : Db) :
    CascadeStep → Db
  | .subtasksOfTasks =>
      { db with subtasks := db.subtasks.filter (fun s => !(taskIds.contains s.task)) }
  | .tasksOfProject =>
      { db with tasks := db.tasks.filter (fun t => !(t.project == pid)) }
  | .notesOfProject =>
      { db with notes := db.notes.filter (fun n => !(n.project == pid)) }
  | .membersOfProject =>
      { db with members := db.members.filter (fun m => !(m.project == pid)) }
  | .projectItself =>
      { db with projects := db.projects.filter (fun p => !(p.id == pid)) }

/-- The transaction body of deleteProject: apply the cascade steps in order to
a working copy; `failAt` injects a storage failure at a step, in which case
the transaction aborts (`none`) and nothing is published. -/
def runCascade (pid : String) (failAt : CascadeStep → Bool) (db : Db) : Option Db :=
  let taskIds := taskIdsOf db pid
  cascadeOrder.foldl
    (fun acc st => acc.bind
      (fun d => if failAt st then none else some (applyCascadeStep pid taskIds d st)))
    (some db)

/-- `deleteProject`: 404 when the project is absent, otherwise run the
cascade transaction; on abort the original state is kept and the error
propagates (second component `some status`). -/
def deleteProject (pid : String) (failAt : CascadeStep → Bool) (db : Db) :
    Db × Option Nat :=
  match db.findProject pid with
  | none => (db, some 404)
  | some _ =>
    match runCascade pid failAt db with
    | some d => (d, none)
    | none => (db, some 500)

/-! ## Project creation (createProject, project controller) -/

/-- Request body and principal of createProject. -/
structure CreateProjectReq where
  name : Option String
  description : Option String
  callerId : String
deriving DecidableEq, Repr

/-- Fault injection for the two writes inside the create-project transaction. -/
structure CreateFaults where
  projectWrite : Bool
  memberWrite : Bool
deriving DecidableEq, Repr

/-- `createProject`: validate the name, then inside one transaction create the
Project and the creator's admin ProjectMember; if either write fails the
transaction aborts and the original state is kept. `freshPid`/`freshMid` are
the ObjectIds minted for the new documents, `now` the `joinedAt` default. -/
def createProject (db : Db) (freshPid freshMid : String) (now : Nat)
    (f : CreateFaults) (req : CreateProjectReq) : Db × Except Nat Project :=
  match req.name with
  | none => (db, .error 400)
  | some n =>
    if n = "" then (db, .error 400)
    else if trimStr n = "" then (db, .error 400)
    else
      let trimmedDescription := (match req.description with
        | some d => trimStr d
        | none => "")
      if f.projectWrite then (db, .error 500)
      else if f.memberWrite then (db, .error 500)
      else
        let p : Project :=
          { id := freshPid, name := trimStr n, description := trimmedDescription,
            owner := req.callerId }
        let m : ProjectMember :=
          { id := freshMid, project := freshPid, user := req.callerId,
            role := .admin, joinedAt := now, addedBy := req.callerId, version := 0 }
        ({ db with projects := p :: db.projects, members := m :: db.members }, .ok p)

/-! ## Membership registry operations (project controller) -/

/-- Request of addProjectMember. -/
structure AddMemberReq where
  projectId : String
  email : Option String
  role : Option String
  callerId : String
deriving DecidableEq, Repr

/-- `addProjectMember`: validate email and role, check project and user
existence, reject a duplicate (project, user) pair with 409, otherwise insert
the membership. -/
def addProjectMember (db : Db) (freshMid : String) (now : Nat)
    (req : AddMemberReq) : Db × Except Nat ProjectMember :=
  match req.email with
  | none => (db, .error 400)
  | some email =>
    if email = "" then (db, .error 400)
    else match req.role with
    | none => (db, .error 400)
    | some roleStr =>
      if roleStr = "" then (db, .error 400)
      else if !(validRoles.contains roleStr) then (db, .error 400)
      else match db.findProject req.projectId with
      | none => (db, .error 404)
      | some _ =>
        match db.findUserByEmail (trimStr (toLowerStr email)) with
        | none => (db, .error 404)
        | some userToAdd =>
          match db.findMembership req.projectId userToAdd.id with
          | some _ => (db, .error 409)
          | none =>
            match Role.ofString? roleStr with
            | none => (db, .error 400)
            | some r =>
              let m : ProjectMember :=
                { id := freshMid, project := req.projectId, user := userToAdd.id,
                  role := r, joinedAt := now, addedBy := req.callerId, version := 0 }
              ({ db with members := m :: db.members }, .ok m)

/-- Request of updateProjectMemberRole. -/
structure UpdateRoleReq where
  projectId : String
  userId : String
  role : Option String
deriving DecidableEq, Repr

/-- `updateProjectMemberRole`: validate the role string, find the membership
by (project, user) (404 when absent), then set only the role field and save
(the version key is bumped by the optimistic-concurrency save). -/
def updateProjectMemberRole (db : Db) (req : UpdateRoleReq) :
    Db × Except Nat ProjectMember :=
  match req.role with
  | none => (db, .error 400)
  | some roleStr =>
    if roleStr = "" then (db, .error 400)
    else if !(validRoles.contains roleStr) then (db, .error 400)
    else match db.findMembership req.projectId req.userId with
    | none => (db, .error 404)
    | some m =>
      match Role.ofString? roleStr with
      | none => (db, .error 400)
      | some r =>
        ({ db with members := (db.members.map
            (fun x => if x.id == m.id then { x with role := r, version := x.version + 1 } else x)) },
         .ok { m with role := r, version := m.version + 1 })

/-- `removeProjectMember`: find the membership by (project, user), 404 when
absent, otherwise delete exactly that membership document. -/
def removeProjectMember (db : Db) (pid uid : String) : Db × Except Nat Unit :=
  match db.findMembership pid uid with
  | none => (db, .error 404)
  | some m =>
    ({ db with members := db.members.filter (fun x => !(x.id == m.id)) }, .ok ())

/-! ## Subtask update (updateSubtask, task controller) -/

/-- Request of updateSubtask: path params, body fields, and the project role
attached by verifyProjectMembership. -/
structure UpdateSubtaskReq where
  projectId : String
  subtaskId : String
  title : Option String
  description : Option String
  isCompleted : Option Bool
  projectRole : Role
deriving DecidableEq, Repr

/-- `updateSubtask`: find the subtask, check its task belongs to the project,
then apply the role-gated field updates. Members may only set `isCompleted`
and are rejected with 403 when the body defines `title` or `description`;
admins and project_admins may set all three fields. -/
def updateSubtask (db : Db) (req : UpdateSubtaskReq) : Db × Except Nat Subtask :=
  match db.findSubtask req.subtaskId with
  | none => (db, .error 404)
  | some s =>
    match db.findTask s.task with
    | none => (db, .error 500)
    | some t =>
      if !(t.project == req.projectId) then (db, .error 404)
      else
        match req.projectRole with
        | .member =>
          if req.title.isSome || req.description.isSome then (db, .error 403)
          else
            let s2 := (match req.isCompleted with
              | some b => { s with isCompleted := b }
              | none => s)
            ({ db with subtasks := db.subtasks.map (fun x => if x.id == s.id then s2 else x) },
             .ok s2)
        | _ =>
          if (match req.title with | some ttl => trimStr ttl == "" | none => false) then
            (db, .error 400)
          else
            let s1 := (match req.title with
              | some ttl => { s with title := trimStr ttl }
              | none => s)
            let s2 := (match req.description with
              | some d => { s1 with description := trimStr d }
              | none => s1)
            let s3 := (match req.isCompleted with
              | some b => { s2 with isCompleted := b }
              | none => s2)
            ({ db with subtasks := db.subtasks.map (fun x => if x.id == s.id then s3 else x) },
             .ok s3)

/-! ## Auth middleware (auth.middlewares.js) -/

/-- Hex digit test used by the ObjectId shape check. -/
def isHexChar (c : Char) : Bool :=
  c.isDigit || (decide ('a' ≤ c) && decide (c ≤ 'f')) || (decide ('A' ≤ c) && decide (c ≤ 'F'))

/-- Models `mongoose.Types.ObjectId.isValid` on strings: a 24-character hex
string, or any 12-character string. -/
def isValidObjectId (s : String) : Bool :=
  (s.length == 24 && s.toList.all isHexChar) || s.length == 12

/-- The request fields read by verifyProjectMembership: the principal
attached by verifyJWT (if any) and the `projectId` path parameter. -/
structure MwReq where
  userId : Option String
  projectId : Option String
deriving DecidableEq, Repr

/-- `verifyProjectMembership`: require a principal (401), require and
shape-check the project id (400), look up the project (404 when absent),
look up the membership (403 when absent), and return the membership that is
attached to the request context. -/
def verifyProjectMembership (db : Db) (req : MwReq) : Except Nat ProjectMember :=
  match req.userId with
  | none => .error 401
  | some uid =>
    match req.projectId with
    | none => .error 400
    | some pid =>
      if pid = "" then .error 400
      else if !(isValidObjectId pid) then .error 400
      else match db.findProject pid with
      | none => .error 404
      | some _ =>
        match db.findMembership pid uid with
        | none => .error 403
        | some m => .ok m

/-- A guard installed on a route, as data. -/
inductive Guard
  | jwt
  | roles (allowed : List String)
  | projectMembershipG
  | projectRoleG (allowed : List String)
deriving DecidableEq, Repr

/-- The request context threaded through a guard chain. -/
structure Ctx where
  user : Option User
  projectId : Option String
  projectMembership : Option ProjectMember
deriving DecidableEq, Repr

/-- Request-time body of `verifyJWT`: the context carries the resolved
principal exactly when the credential was valid. -/
def verifyJWTRun (c : Ctx) : Except Nat Ctx :=
  match c.user with
  | none => .error 401
  | some _ => .ok c

/-- Request-time body of a `verifyRoles(allowedRoles)` guard: 401 without a
principal, 403 when the system role is unset or not in the allow-list. -/
def verifyRolesRun (allowed : List String) (c : Ctx) : Except Nat Ctx :=
  match c.user with
  | none => .error 401
  | some u =>
    match u.role with
    | none => .error 403
    | some r =>
      if r = "" then .error 403
      else if !(allowed.contains r) then .error 403
      else .ok c

/-- Request-time body of `verifyProjectMembership` as a guard: on success the
membership is attached to the context. -/
def verifyProjectMembershipRun (db : Db) (c : Ctx) : Except Nat Ctx :=
  match verifyProjectMembership db { userId := c.user.map User.id, projectId := c.projectId } with
  | .error n => .error n
  | .ok m => .ok { c with projectMembership := some m }

/-- Request-time body of a `verifyProjectRole(allowedRoles)` guard: 500 when
the membership check did not run first, 403 when the project role is not in
the allow-list. -/
def verifyProjectRoleRun (allowed : List String) (c : Ctx) : Except Nat Ctx :=
  match c.projectMembership with
  | none => .error 500
  | some m =>
    if !(allowed.contains m.role.toStr) then .error 403
    else .ok c

/-- Run one guard against the store and the context. -/
def runGuard (db : Db) (c : Ctx) : Guard → Except Nat Ctx
  | .jwt => verifyJWTRun c
  | .roles allowed => verifyRolesRun allowed c
  | .projectMembershipG => verifyProjectMembershipRun db c
  | .projectRoleG allowed => verifyProjectRoleRun allowed c

/-- Run a guard chain left to right, aborting at the first failure. -/
def runGuards (db : Db) (gs : List Guard) (c : Ctx) : Except Nat Ctx :=
  gs.foldlM (fun acc g => runGuard db acc g) c

/-- A JavaScript argument to a guard factory: either an array of strings or
some non-array value. -/
inductive JsValue
  | arr (xs : List String)
  | nonArray
deriving DecidableEq, Repr

/-- The `verifyRoles` factory: validates its allow-list at construction time
and throws a synchronous Error unless it is a non-empty array. -/
def verifyRoles : JsValue → Except String Guard
  | .arr xs =>
    if xs.isEmpty then .error "verifyRoles requires a non-empty array of allowed roles"
    else .ok (.roles xs)
  | .nonArray => .error "verifyRoles requires a non-empty array of allowed roles"

/-- The `verifyProjectRole` factory: same construction-time validation. -/
def verifyProjectRole : JsValue → Except String Guard
  | .arr xs =>
    if xs.isEmpty then .error "verifyProjectRole requires a non-empty array of allowed roles"
    else .ok (.projectRoleG xs)
  | .nonArray => .error "verifyProjectRole requires a non-empty array of allowed roles"

/-! ## Route guard chains (note.routes.js, project.routes.js, task.routes.js) -/

/-- POST /api/v1/notes/:projectId. -/
def noteCreateGuards : List Guard := [.jwt, .roles ["admin"]]

/-- GET /api/v1/notes/:projectId. -/
def noteListGuards : List Guard := [.jwt, .projectMembershipG]

/-- GET /api/v1/notes/:projectId/n/:noteId. -/
def noteGetGuards : List Guard := [.jwt, .projectMembershipG]

/-- PUT /api/v1/notes/:projectId/n/:noteId. -/
def noteUpdateGuards : List Guard := [.jwt, .roles ["admin"]]

/-- DELETE /api/v1/notes/:projectId/n/:noteId. -/
def noteDeleteGuards : List Guard := [.jwt, .roles ["admin"]]

/-- Guard chains of project.routes.js, in route order. -/
def projectRouteChains : List (List Guard) :=
  [ [.jwt, .roles ["admin"]],
    [.jwt],
    [.jwt, .projectMembershipG],
    [.jwt, .projectMembershipG, .projectRoleG ["admin"]],
    [.jwt, .projectMembershipG, .projectRoleG ["admin"]],
    [.jwt, .roles ["admin"]],
    [.jwt, .projectMembershipG],
    [.jwt, .projectMembershipG, .projectRoleG ["admin"]],
    [.jwt, .projectMembershipG, .projectRoleG ["admin"]] ]

/-- Guard chains of task.routes.js, in route order. -/
def taskRouteChains : List (List Guard) :=
  [ [.jwt, .projectMembershipG, .projectRoleG ["admin", "project_admin"]],
    [.jwt, .projectMembershipG],
    [.jwt, .projectMembershipG],
    [.jwt, .projectMembershipG, .projectRoleG ["admin", "project_admin"]],
    [.jwt, .projectMembershipG, .projectRoleG ["admin", "project_admin"]],
    [.jwt, .projectMembershipG, .projectRoleG ["admin", "project_admin"]],
    [.jwt, .projectMembershipG],
    [.jwt, .projectMembershipG, .projectRoleG ["admin", "project_admin"]],
    [.jwt, .projectMembershipG, .projectRoleG ["admin", "project_admin"]] ]

/-- Guard chains of note.routes.js, in route order. -/
def noteRouteChains : List (List Guard) :=
  [noteCreateGuards, noteListGuards, noteGetGuards, noteUpdateGuards, noteDeleteGuards]

/-- Every guard chain installed by the three route files. -/
def installedChains : List (List Guard) :=
  projectRouteChains ++ taskRouteChains ++ noteRouteChains

/-- The allow-list of a role guard, when it has one. -/
def Guard.allowList : Guard → Option (List String)
  | .roles xs => some xs
  | .projectRoleG xs => some xs
  | _ => none

/-! ## Note handlers (note.controller.js) -/

/-- `createNote`: require a non-blank title (400), require the project (404),
then insert the note with `createdBy` set to the principal. -/
def createNote (db : Db) (freshId pid : String) (title content : Option String)
    (uid : String) : Db × Except Nat Note :=
  match title with
  | none => (db, .error 400)
  | some ttl =>
    if ttl = "" then (db, .error 400)
    else if trimStr ttl = "" then (db, .error 400)
    else match db.findProject pid with
    | none => (db, .error 404)
    | some _ =>
      let n : Note :=
        { id := freshId, project := pid, title := trimStr ttl,
          content := (match content with | some cnt => trimStr cnt | none => ""),
          createdBy := uid }
      ({ db with notes := n :: db.notes }, .ok n)

/-- `updateNote`: find the note scoped to the project (404), reject a blank
provided title (400), then set the provided fields and save. -/
def updateNote (db : Db) (pid nid : String) (title content : Option String) :
    Db × Except Nat Note :=
  match db.findNote nid pid with
  | none => (db, .error 404)
  | some n =>
    if (match title with | some ttl => trimStr ttl == "" | none => false) then (db, .error 400)
    else
      let n1 := (match title with
        | some ttl => { n with title := trimStr ttl }
        | none => n)
      let n2 := (match content with
        | some cnt => { n1 with content := trimStr cnt }
        | none => n1)
      ({ db with notes := db.notes.map (fun x => if x.id == n.id then n2 else x) }, .ok n2)

/-- `deleteNote`: find the note scoped to the project (404), then delete it. -/
def deleteNote (db : Db) (pid nid : String) : Db × Except Nat Unit :=
  match db.findNote nid pid with
  | none => (db, .error 404)
  | some n =>
    ({ db with notes := db.notes.filter (fun x => !(x.id == n.id)) }, .ok ())

/-- The POST /api/v1/notes/:projectId endpoint: guard chain then handler. -/
def createNoteEndpoint (db : Db) (c : Ctx) (freshId : String)
    (title content : Option String) : Db × Except Nat Note :=
  match runGuards db noteCreateGuards c with
  | .error n => (db, .error n)
  | .ok c2 =>
    match c2.user, c2.projectId with
    | some u, some pid => createNote db freshId pid title content u.id
    | _, _ => (db, .error 500)

/-- The PUT /api/v1/notes/:projectId/n/:noteId endpoint. -/
def updateNoteEndpoint (db : Db) (c : Ctx) (noteId : String)
    (title content : Option String) : Db × Except Nat Note :=
  match runGuards db noteUpdateGuards c with
  | .error n => (db, .error n)
  | .ok c2 =>
    match c2.projectId with
    | some pid => updateNote db pid noteId title content
    | none => (db, .error 500)

/-- The DELETE /api/v1/notes/:projectId/n/:noteId endpoint. -/
def deleteNoteEndpoint (db : Db) (c : Ctx) (noteId : String) :
    Db × Except Nat Unit :=
  match runGuards db noteDeleteGuards c with
  | .error n => (db, .error n)
  | .ok c2 =>
    match c2.projectId with
    | some pid => deleteNote db pid noteId
    | none => (db, .error 500)

/-! ## Membership uniqueness invariant -/

/-- At most one membership per (project, user) pair. -/
def pairUnique (db : Db) : Prop :=
  db.members.Pairwise (fun m1 m2 => ¬(m1.project = m2.project ∧ m1.user = m2.user))

/-! ## Optimistic-locking race model (retryWithOptimisticLocking) -/

/-- The stored membership document as the race sees it: the role and the
mongoose version key checked on save. -/
structure DbRec where
  role : Role
  version : Nat
deriving DecidableEq, Repr

/-- Where a writer is inside its fetch-mutate-save cycle. -/
inductive WPhase
  | start
  | fetched (v : Nat)
  | done
deriving DecidableEq, Repr

/-- One concurrent updateProjectMemberRole request: its target role and its
current phase. -/
structure Writer where
  target : Role
  phase : WPhase
deriving DecidableEq, Repr

/-- One atomic storage interaction of a writer, following
retryWithOptimisticLocking: from `start` it re-fetches the document (and
thereby observes the currently persisted role and version); from `fetched v`
its save succeeds exactly when the stored version is still `v`, committing
its target role and bumping the version, and otherwise fails with a
VersionError and sends the writer back to `start` to retry. -/
def stepWriter (d : DbRec) (w : Writer) : DbRec × Writer :=
  match w.phase with
  | .start => (d, { w with phase := .fetched d.version })
  | .fetched v =>
    if d.version == v then
      ({ role := w.target, version := v + 1 }, { w with phase := .done })
    else
      (d, { w with phase := .start })
  | .done => (d, w)

/-- A race between two concurrent role updates A and B on one membership. -/
structure RaceState where
  doc : DbRec
  wa : Writer
  wb : Writer
deriving DecidableEq, Repr

/-- Let one of the two writers (A when `who`, else B) take its next atomic
storage step. -/
def raceStep (s : RaceState) (who : Bool) : RaceState :=
  if who then
    { s with doc := (stepWriter s.doc s.wa).1, wa := (stepWriter s.doc s.wa).2 }
  else
    { s with doc := (stepWriter s.doc s.wb).1, wb := (stepWriter s.doc s.wb).2 }

/-- Run the race under an arbitrary interleaving of the two writers. -/
def raceRun (s : RaceState) (sched : List Bool) : RaceState :=
  sched.foldl raceStep s

/-- Initial race state: stored role `r0` at version `v0`, both updates
submitted with their target roles and not yet started. -/
def raceInit (r0 : Role) (v0 : Nat) (ta tb : Role) : RaceState :=
  { doc := { role := r0, version := v0 },
    wa := { target := ta, phase := .start },
    wb := { target := tb, phase := .start } }

/-- How many of the two writers have committed. A writer is `done` exactly
when its save succeeded, so this counts successful commits. -/
def doneCount (s : RaceState) : Nat :=
  (if s.wa.phase = .done then 1 else 0) + (if s.wb.phase = .done then 1 else 0)

/-- Inductive invariant of the race: the version counts the commits; the
stored role is the initial one until someone commits and one of the two
targets afterwards; and a writer holding a stale fetch can only be stale
because the other writer committed, in which case the store already holds
the other writer's target. -/
def raceInv (r0 : Role) (v0 : Nat) (s : RaceState) : Prop :=
  s.doc.version = v0 + doneCount s
  ∧ (doneCount s = 0 → s.doc.role = r0)
  ∧ ((s.wa.phase = .done ∨ s.wb.phase = .done) →
      s.doc.role = s.wa.target ∨ s.doc.role = s.wb.target)
  ∧ (∀ v, s.wa.phase = .fetched v →
      v ≤ s.doc.version ∧
        (v ≠ s.doc.version → s.wb.phase = .done ∧ s.doc.role = s.wb.target))
  ∧ (∀ v, s.wb.phase = .fetched v →
      v ≤ s.doc.version ∧
        (v ≠ s.doc.version → s.wa.phase = .done ∧ s.doc.role = s.wa.target))

/-! ## Concrete records used to exercise the theorems -/

/-- A well-formed ObjectId used as a project id in concrete runs. -/
def pidEx : String := "aaaaaaaaaaaaaaaaaaaaaaaa"

/-- A system-level admin who is a member of no project. -/
def exUserAdmin : User :=
  { id := "u1", email := "a@x.com", username := "alice", role := some "admin" }

/-- An ordinary user, project member with project role `member`. -/
def exUserBob : User :=
  { id := "u2", email := "b@x.com", username := "bob", role := some "member" }

/-- A user not yet a member of any project. -/
def exUserCarol : User :=
  { id := "u3", email := "c@x.com", username := "carol", role := some "member" }

def exProject : Project :=
  { id := pidEx, name := "Site Redesign", description := "", owner := "u1" }

def exMemberBob : ProjectMember :=
  { id := "m2", project := pidEx, user := "u2", role := .member, joinedAt := 5,
    addedBy := "u1", version := 0 }

def exTask : Task :=
  { id := "t1", project := pidEx, title := "T", description := "",
    assignee := none, status := "todo", createdBy := "u1" }

def exSubtask : Subtask :=
  { id := "s1", task := "t1", title := "S", description := "",
    isCompleted := false, createdBy := "u1" }

def exNote : Note :=
  { id := "n1", project := pidEx, title := "N", content := "", createdBy := "u1" }

/-- A small concrete store. -/
def exDb : Db :=
  { users := [exUserAdmin, exUserBob, exUserCarol], projects := [exProject],
    members := [exMemberBob], tasks := [exTask], subtasks := [exSubtask],
    notes := [exNote] }

/-! ## Helper lemmas -/

/-- A role string that parses is the stored form of the parsed role. -/
theorem ofString?_eq_toStr {s : String} {r : Role} (h : Role.ofString? s = some r) :
    s = r.toStr := by
  unfold Role.ofString? at h
  split_ifs at h with h1 h2 h3
  · injection h with h'; subst h'; simpa [Role.toStr] using h1
  · injection h with h'; subst h'; simpa [Role.toStr] using h2
  · injection h with h'; subst h'; simpa [Role.toStr] using h3

theorem toStr_mem_validRoles (r : Role) : validRoles.contains r.toStr = true := by
  cases r <;> decide

theorem toStr_mem_validRoles' (r : Role) : r.toStr ∈ validRoles := by
  cases r <;> decide

theorem toStr_ne_empty (r : Role) : r.toStr ≠ "" := by
  cases r <;> decide

theorem ofString?_toStr (r : Role) : Role.ofString? r.toStr = some r := by
  cases r <;> decide

/-! ## C10: guard factories validate the allow-list at construction time -/

/-- C10: `verifyRoles` and `verifyProjectRole` throw a synchronous Error at
guard-construction time whenever the supplied allow-list is not a non-empty
array, so a successfully constructed guard always carries a non-empty
allow-list, and every guard installed by the route files has a non-empty
allow-list. -/
theorem guard_factories_require_nonempty_allow_list :
    (∀ v g, verifyRoles v = .ok g → ∃ xs, v = .arr xs ∧ xs ≠ [] ∧ g = .roles xs)
    ∧ (∀ v g, verifyProjectRole v = .ok g →
        ∃ xs, v = .arr xs ∧ xs ≠ [] ∧ g = .projectRoleG xs)
    ∧ (∃ msg, verifyRoles (.arr []) = .error msg)
    ∧ (∃ msg, verifyRoles .nonArray = .error msg)
    ∧ (∃ msg, verifyProjectRole (.arr []) = .error msg)
    ∧ (∃ msg, verifyProjectRole .nonArray = .error msg)
    ∧ (∀ chain ∈ installedChains, ∀ g ∈ chain, g.allowList ≠ some []) := by
  refine ⟨?_, ?_, ⟨_, rfl⟩, ⟨_, rfl⟩, ⟨_, rfl⟩, ⟨_, rfl⟩, by decide⟩
  · intro v g h
    cases v with
    | arr xs =>
      by_cases hxs : xs.isEmpty
      · simp [verifyRoles, hxs] at h
      · refine ⟨xs, rfl, ?_, ?_⟩
        · simpa [List.isEmpty_iff] using hxs
        · simp [verifyRoles, hxs] at h
          exact h.symm
    | nonArray => simp [verifyRoles] at h
  · intro v g h
    cases v with
    | arr xs =>
      by_cases hxs : xs.isEmpty
      · simp [verifyProjectRole, hxs] at h
      · refine ⟨xs, rfl, ?_, ?_⟩
        · simpa [List.isEmpty_iff] using hxs
        · simp [verifyProjectRole, hxs] at h
          exact h.symm
    | nonArray => simp [verifyProjectRole] at h

/-- Witness for C10 at a concrete factory call. -/
theorem guard_factories_require_nonempty_allow_list_witness :
    ∃ xs, JsValue.arr ["admin"] = JsValue.arr xs ∧ xs ≠ [] ∧
      Guard.roles ["admin"] = Guard.roles xs :=
  guard_factories_require_nonempty_allow_list.1 (.arr ["admin"]) (.roles ["admin"])
    (by simp [verifyRoles])

/-! ## C5: the membership check -/

/-- C5: verifyProjectMembership rejects a syntactically invalid project id
with 400 independently of the store (so before any lookup); with a
well-formed id it fails 404 when the project is absent, 403 when the
(project, principal) membership is absent, and otherwise succeeds returning
the membership it attaches to the request. -/
theorem verifyProjectMembership_spec (req : MwReq) (uid : String)
    (hu : req.userId = some uid) :
    (∀ pid, req.projectId = some pid → isValidObjectId pid = false →
      ∀ db : Db, verifyProjectMembership db req = .error 400)
    ∧ (∀ pid (db : Db), req.projectId = some pid → isValidObjectId pid = true →
        db.findProject pid = none → verifyProjectMembership db req = .error 404)
    ∧ (∀ pid (db : Db) p, req.projectId = some pid → isValidObjectId pid = true →
        db.findProject pid = some p → db.findMembership pid uid = none →
        verifyProjectMembership db req = .error 403)
    ∧ (∀ pid (db : Db) p m, req.projectId = some pid → isValidObjectId pid = true →
        db.findProject pid = some p → db.findMembership pid uid = some m →
        verifyProjectMembership db req = .ok m) := by
  have hne : ∀ pid : String, isValidObjectId pid = true → ¬(pid = "") := by
    intro pid hv h
    subst h
    exact absurd hv (by decide)
  refine ⟨?_, ?_, ?_, ?_⟩
  · intro pid hpid hinv db
    by_cases h0 : pid = ""
    · simp [verifyProjectMembership, hu, hpid, h0]
    · simp [verifyProjectMembership, hu, hpid, h0, hinv]
  · intro pid db hpid hv hfp
    simp [verifyProjectMembership, hu, hpid, hne pid hv, hv, hfp]
  · intro pid db p hpid hv hfp hfm
    simp [verifyProjectMembership, hu, hpid, hne pid hv, hv, hfp, hfm]
  · intro pid db p m hpid hv hfp hfm
    simp [verifyProjectMembership, hu, hpid, hne pid hv, hv, hfp, hfm]

/-- Witness for C5: concrete malformed id, absent project, non-member, and
member runs. -/
theorem verifyProjectMembership_spec_witness :
    verifyProjectMembership exDb { userId := some "u2", projectId := some "not-an-oid" } = .error 400
    ∧ verifyProjectMembership exDb { userId := some "u2", projectId := some pidEx } = .ok exMemberBob := by
  constructor
  · exact (verifyProjectMembership_spec
      { userId := some "u2", projectId := some "not-an-oid" } "u2" rfl).1
      "not-an-oid" rfl (by decide) exDb
  · exact (verifyProjectMembership_spec
      { userId := some "u2", projectId := some pidEx } "u2" rfl).2.2.2
      pidEx exDb exProject exMemberBob rfl (by decide) (by decide) (by decide)

/-! ## C7: updateProjectMemberRole updates only the role field -/

/-- C7: for an existing membership and a recognized role value,
updateProjectMemberRole changes only the role (and the optimistic-lock
version): the returned membership and every stored membership keep their
joinedAt, addedBy, project and user fields; when no membership exists for
the (project, user) pair it fails with 404 and the store is unchanged. -/
theorem updateProjectMemberRole_spec (db : Db) (req : UpdateRoleReq)
    (roleStr : String) (r : Role) (hrole : req.role = some roleStr)
    (hparse : Role.ofString? roleStr = some r) :
    (db.findMembership req.projectId req.userId = none →
      updateProjectMemberRole db req = (db, .error 404))
    ∧ (∀ m, db.findMembership req.projectId req.userId = some m →
        ∃ db2 m2, updateProjectMemberRole db req = (db2, .ok m2)
          ∧ m2.role = r
          ∧ m2.joinedAt = m.joinedAt ∧ m2.addedBy = m.addedBy
          ∧ m2.project = m.project ∧ m2.user = m.user
          ∧ db2.members.map ProjectMember.joinedAt = db.members.map ProjectMember.joinedAt
          ∧ db2.members.map ProjectMember.addedBy = db.members.map ProjectMember.addedBy
          ∧ db2.members.map ProjectMember.project = db.members.map ProjectMember.project
          ∧ db2.members.map ProjectMember.user = db.members.map ProjectMember.user) := by
  have hs : roleStr = r.toStr := ofString?_eq_toStr hparse
  subst hs
  constructor
  · intro hfind
    simp [updateProjectMemberRole, hrole, toStr_ne_empty r, toStr_mem_validRoles r,
      toStr_mem_validRoles' r, hfind]
  · intro m hfind
    refine ⟨{ db with members := (db.members.map (fun x =>
        if x.id == m.id then { x with role := r, version := x.version + 1 } else x)) },
      { m with role := r, version := m.version + 1 },
      ?_, rfl, rfl, rfl, rfl, rfl, ?_, ?_, ?_, ?_⟩
    · simp [updateProjectMemberRole, hrole, toStr_ne_empty r, toStr_mem_validRoles r,
        toStr_mem_validRoles' r, hfind, ofString?_toStr r]
    all_goals
      simp only [List.map_map]
      refine List.map_congr_left ?_
      intro x hx
      by_cases h : x.id == m.id <;> simp [Function.comp, h]

/-- Witness for C7: a concrete promotion of Bob to project_admin. -/
theorem updateProjectMemberRole_spec_witness :
    ∃ db2 m2,
      updateProjectMemberRole exDb
        { projectId := pidEx, userId := "u2", role := some "project_admin" } = (db2, .ok m2)
      ∧ m2.role = .project_admin
      ∧ m2.joinedAt = exMemberBob.joinedAt ∧ m2.addedBy = exMemberBob.addedBy
      ∧ m2.project = exMemberBob.project ∧ m2.user = exMemberBob.user
      ∧ db2.members.map ProjectMember.joinedAt = exDb.members.map ProjectMember.joinedAt
      ∧ db2.members.map ProjectMember.addedBy = exDb.members.map ProjectMember.addedBy
      ∧ db2.members.map ProjectMember.project = exDb.members.map ProjectMember.project
      ∧ db2.members.map ProjectMember.user = exDb.members.map ProjectMember.user :=
  (updateProjectMemberRole_spec exDb
    { projectId := pidEx, userId := "u2", role := some "project_admin" }
    "project_admin" .project_admin rfl (by decide)).2 exMemberBob (by decide)

/-! ## C6: role-gated subtask updates -/

/-- C6: a member whose request defines title or description is rejected with
403 and the store is unchanged; a member sending only isCompleted succeeds
and exactly that field of the subtask changes; an admin or project_admin may
set title, description and isCompleted in one update. -/
theorem updateSubtask_role_gating (db : Db) (req : UpdateSubtaskReq)
    (s : Subtask) (t : Task)
    (hsub : db.findSubtask req.subtaskId = some s)
    (htask : db.findTask s.task = some t)
    (hproj : t.project = req.projectId) :
    (req.projectRole = .member → req.title.isSome ∨ req.description.isSome →
      updateSubtask db req = (db, .error 403))
    ∧ (req.projectRole = .member → req.title = none → req.description = none →
        ∀ b, req.isCompleted = some b →
          updateSubtask db req =
            ({ db with subtasks := (db.subtasks.map
                (fun x => if x.id == s.id then { s with isCompleted := b } else x)) },
             .ok { s with isCompleted := b }))
    ∧ ((req.projectRole = .admin ∨ req.projectRole = .project_admin) →
        ∀ ttl d b, req.title = some ttl → trimStr ttl ≠ "" →
          req.description = some d → req.isCompleted = some b →
          updateSubtask db req =
            ({ db with subtasks := (db.subtasks.map
                (fun x => if x.id == s.id then
                  { s with title := trimStr ttl, description := trimStr d, isCompleted := b }
                  else x)) },
             .ok { s with title := trimStr ttl, description := trimStr d, isCompleted := b })) := by
  refine ⟨?_, ?_, ?_⟩
  · intro hm hts
    have hts' : req.title.isSome || req.description.isSome := by
      rcases hts with h | h <;> simp [h]
    simp [updateSubtask, hsub, htask, hproj, hm, hts']
  · intro hm ht hd b hb
    simp [updateSubtask, hsub, htask, hproj, hm, ht, hd, hb]
  · intro hrole ttl d b ht httl hd hb
    rcases hrole with h | h <;>
      simp [updateSubtask, hsub, htask, hproj, h, ht, httl, hd, hb]

/-- Witness for C6: Bob the member is rejected when he sends a title, and
succeeds when he toggles only isCompleted. -/
theorem updateSubtask_role_gating_witness :
    updateSubtask exDb
      { projectId := pidEx, subtaskId := "s1", title := some "X",
        description := none, isCompleted := none, projectRole := .member }
      = (exDb, .error 403)
    ∧ updateSubtask exDb
        { projectId := pidEx, subtaskId := "s1", title := none,
          description := none, isCompleted := some true, projectRole := .member }
      = ({ exDb with subtasks := (exDb.subtasks.map
            (fun x => if x.id == exSubtask.id then { exSubtask with isCompleted := true } else x)) },
         .ok { exSubtask with isCompleted := true }) := by
  constructor
  · exact (updateSubtask_role_gating exDb
      { projectId := pidEx, subtaskId := "s1", title := some "X",
        description := none, isCompleted := none, projectRole := .member }
      exSubtask exTask (by decide) (by decide) (by decide)).1 rfl (by left; rfl)
  · exact (updateSubtask_role_gating exDb
      { projectId := pidEx, subtaskId := "s1", title := none,
        description := none, isCompleted := some true, projectRole := .member }
      exSubtask exTask (by decide) (by decide) (by decide)).2.1 rfl rfl rfl true rfl

/-! ## C4: the retry policy -/

theorem retryGo_zero {α : Type} (op : Nat → Except JsError α) (s : JsError → Bool)
    (base : Nat) : retryGo op s base 0 = (op base, 1) := rfl

theorem retryGo_succ {α : Type} (op : Nat → Except JsError α) (s : JsError → Bool)
    (base n : Nat) :
    retryGo op s base (n + 1) =
      match op base with
      | .ok a => (.ok a, 1)
      | .error e =>
        if s e then ((retryGo op s (base + 1) n).1, (retryGo op s (base + 1) n).2 + 1)
        else (.error e, 1) := rfl

theorem retryGo_count_le {α : Type} (op : Nat → Except JsError α)
    (s : JsError → Bool) :
    ∀ (k base : Nat), (retryGo op s base k).2 ≤ k + 1 := by
  intro k
  induction k with
  | zero => intro base; simp [retryGo_zero]
  | succ n ih =>
    intro base
    rw [retryGo_succ]
    cases h : op base with
    | ok a => simp
    | error e =>
      by_cases hs : s e
      · simpa [hs] using Nat.succ_le_succ (ih (base + 1))
      · simp [hs]

theorem retryGo_all_retryable {α : Type} (op : Nat → Except JsError α)
    (s : JsError → Bool) :
    ∀ (k base : Nat), (∀ j, j ≤ k → ∃ e, op (base + j) = .error e ∧ s e = true) →
      ∀ e, op (base + k) = .error e → retryGo op s base k = (.error e, k + 1) := by
  intro k
  induction k with
  | zero =>
    intro base _ e he
    rw [retryGo_zero]
    simpa using he
  | succ n ih =>
    intro base h e he
    obtain ⟨e0, he0, hs0⟩ := h 0 (Nat.zero_le _)
    rw [Nat.add_zero] at he0
    rw [retryGo_succ, he0]
    simp only [hs0, if_true]
    have hrec : retryGo op s (base + 1) n = (.error e, n + 1) := by
      refine ih (base + 1) ?_ e ?_
      · intro j hj
        obtain ⟨e', h1, h2⟩ := h (j + 1) (Nat.succ_le_succ hj)
        exact ⟨e', by rw [← h1]; congr 1; omega, h2⟩
      · rw [← he]; congr 1; omega
    rw [hrec]

/-- C4: retryOperation invokes its closure at most maxRetries + 1 times (4
with the default of 3 retries); the default classifier retries exactly on
VersionError, code 11000, code 112, or the TransientTransactionError label;
a non-retryable error on the first attempt propagates with no further
invocation; and when every attempt fails retryably, all maxRetries + 1
invocations happen and the last observed error is re-raised unchanged. -/
theorem retryOperation_spec {α : Type} (op : Nat → Except JsError α)
    (maxRetries : Nat) :
    (retryOperation op maxRetries shouldRetryDefault).2 ≤ maxRetries + 1
    ∧ defaultMaxRetries = 3
    ∧ (∀ e : JsError, shouldRetryDefault e = true ↔
        (e.name = "VersionError" ∨ e.code = some 11000 ∨ e.code = some 112 ∨
          "TransientTransactionError" ∈ e.errorLabels))
    ∧ (∀ e, op 0 = .error e → shouldRetryDefault e = false →
        retryOperation op maxRetries shouldRetryDefault = (.error e, 1))
    ∧ ((∀ i, i ≤ maxRetries → ∃ e, op i = .error e ∧ shouldRetryDefault e = true) →
        ∀ e, op maxRetries = .error e →
          retryOperation op maxRetries shouldRetryDefault = (.error e, maxRetries + 1)) := by
  refine ⟨retryGo_count_le op shouldRetryDefault maxRetries 0, rfl, ?_, ?_, ?_⟩
  · intro e
    simp only [shouldRetryDefault, Bool.or_eq_true, beq_iff_eq, List.contains,
      List.elem_eq_mem, decide_eq_true_eq]
    tauto
  · intro e he hs
    cases maxRetries with
    | zero => rw [retryOperation, retryGo_zero, he]
    | succ n => rw [retryOperation, retryGo_succ, he]; simp [hs]
  · intro h e he
    have := retryGo_all_retryable op shouldRetryDefault maxRetries 0
      (fun j hj => by simpa using h j hj) e (by simpa using he)
    exact this

/-- Witness for C4: a closure that fails with a write conflict on the first
two attempts and succeeds afterwards, under the default policy. -/
theorem retryOperation_spec_witness :
    (retryOperation
      (fun i => if i < 2 then Except.error ⟨"MongoServerError", some 112, []⟩ else Except.ok i)
      defaultMaxRetries shouldRetryDefault).2 ≤ defaultMaxRetries + 1
    ∧ retryOperation
        (fun _ => (Except.error ⟨"TypeError", none, []⟩ : Except JsError Nat))
        defaultMaxRetries shouldRetryDefault = (.error ⟨"TypeError", none, []⟩, 1) := by
  constructor
  · exact (retryOperation_spec
      (fun i => if i < 2 then Except.error ⟨"MongoServerError", some 112, []⟩ else Except.ok i)
      defaultMaxRetries).1
  · exact (retryOperation_spec
      (fun _ => (Except.error ⟨"TypeError", none, []⟩ : Except JsError Nat))
      defaultMaxRetries).2.2.2.1 ⟨"TypeError", none, []⟩ rfl (by decide)

/-! ## C1: cascade delete is complete, ordered and all-or-nothing -/

theorem filter_not_filter {α : Type} (p : α → Bool) (l : List α) :
    (l.filter (fun a => !(p a))).filter p = [] := by
  induction l with
  | nil => rfl
  | cons a t ih =>
    by_cases h : p a <;> simp [List.filter_cons, h, ih]

/-- When no step fails, the cascade publishes exactly the store with every
record of the project removed. -/
theorem runCascade_success (pid : String) (failAt : CascadeStep → Bool) (db : Db)
    (hfail : ∀ st, failAt st = false) :
    runCascade pid failAt db = some
      { users := db.users,
        projects := db.projects.filter (fun p => !(p.id == pid)),
        members := db.members.filter (fun m => !(m.project == pid)),
        tasks := db.tasks.filter (fun t => !(t.project == pid)),
        subtasks := db.subtasks.filter (fun s => !((taskIdsOf db pid).contains s.task)),
        notes := db.notes.filter (fun n => !(n.project == pid)) } := by
  simp [runCascade, cascadeOrder, hfail, applyCascadeStep]

/-- When some step fails, the transaction aborts and publishes nothing. -/
theorem runCascade_fail (pid : String) (failAt : CascadeStep → Bool) (db : Db)
    (h : ¬(∀ st, failAt st = false)) : runCascade pid failAt db = none := by
  cases h1 : failAt .subtasksOfTasks <;>
  cases h2 : failAt .tasksOfProject <;>
  cases h3 : failAt .notesOfProject <;>
  cases h4 : failAt .membersOfProject <;>
  cases h5 : failAt .projectItself <;>
    first
      | (simp [runCascade, cascadeOrder, h1, h2, h3, h4, h5]; done)
      | exact absurd (fun st => by cases st <;> assumption) h

/-- A successful deleteProject, as one equation. -/
theorem deleteProject_success_eq (db : Db) (pid : String)
    (failAt : CascadeStep → Bool) (hall : ∀ st, failAt st = false)
    (p : Project) (hfp : db.findProject pid = some p) :
    deleteProject pid failAt db =
      ({ users := db.users,
         projects := db.projects.filter (fun q => !(q.id == pid)),
         members := db.members.filter (fun m => !(m.project == pid)),
         tasks := db.tasks.filter (fun t => !(t.project == pid)),
         subtasks := db.subtasks.filter (fun s => !((taskIdsOf db pid).contains s.task)),
         notes := db.notes.filter (fun n => !(n.project == pid)) }, none) := by
  rw [deleteProject, hfp, runCascade_success pid failAt db hall]

/-- C1: deleteProject removes, in the order subtasks of the project's tasks,
then tasks, then notes, then memberships, then the project, inside one
transaction, so a successful delete leaves zero tasks, subtasks of those
tasks, notes and memberships referencing the project and the project gone;
and when any step fails the transaction aborts and the store is returned
unchanged. -/
theorem deleteProject_cascade_spec (db : Db) (pid : String)
    (failAt : CascadeStep → Bool) :
    cascadeOrder = [.subtasksOfTasks, .tasksOfProject, .notesOfProject,
      .membersOfProject, .projectItself]
    ∧ (∀ d, deleteProject pid failAt db = (d, none) →
        d.tasks.filter (fun t => t.project == pid) = []
        ∧ d.subtasks.filter (fun s => (taskIdsOf db pid).contains s.task) = []
        ∧ d.notes.filter (fun n => n.project == pid) = []
        ∧ d.members.filter (fun m => m.project == pid) = []
        ∧ d.projects.filter (fun p => p.id == pid) = [])
    ∧ (∀ d e, deleteProject pid failAt db = (d, some e) → d = db)
    ∧ (∀ st, failAt st = true → ∃ e, deleteProject pid failAt db = (db, some e)) := by
  refine ⟨rfl, ?_, ?_, ?_⟩
  · intro d hd
    by_cases hall : ∀ st, failAt st = false
    · rcases hfp : db.findProject pid with _ | p
      · simp [deleteProject, hfp] at hd
      · rw [deleteProject_success_eq db pid failAt hall p hfp] at hd
        have h1 := congrArg Prod.fst hd
        subst h1
        exact ⟨filter_not_filter _ _, filter_not_filter _ _, filter_not_filter _ _,
          filter_not_filter _ _, filter_not_filter _ _⟩
    · rcases hfp : db.findProject pid with _ | p
      · simp [deleteProject, hfp] at hd
      · rw [deleteProject] at hd
        rw [hfp, runCascade_fail pid failAt db hall] at hd
        exact absurd (congrArg Prod.snd hd) (by simp)
  · intro d e hd
    rcases hfp : db.findProject pid with _ | p
    · rw [deleteProject, hfp] at hd
      exact (congrArg Prod.fst hd).symm
    · rw [deleteProject, hfp] at hd
      rcases hc : runCascade pid failAt db with _ | d2
      · rw [hc] at hd
        exact (congrArg Prod.fst hd).symm
      · rw [hc] at hd
        exact absurd (congrArg Prod.snd hd) (by simp)
  · intro st hst
    have hall : ¬(∀ st, failAt st = false) := fun h => by
      rw [h st] at hst; cases hst
    rcases hfp : db.findProject pid with _ | p
    · exact ⟨404, by rw [deleteProject, hfp]⟩
    · exact ⟨500, by rw [deleteProject, hfp, runCascade_fail pid failAt db hall]⟩

/-- Witness for C1: a clean run on the concrete store and an aborted run
with a failure injected at the note-deletion step. -/
theorem deleteProject_cascade_spec_witness :
    (deleteProject pidEx (fun _ => false) exDb).1.tasks.filter
      (fun t => t.project == pidEx) = []
    ∧ deleteProject pidEx (fun st => st == .notesOfProject) exDb = (exDb, some 500) := by
  constructor
  · have h := (deleteProject_cascade_spec exDb pidEx (fun _ => false)).2.1
      (deleteProject pidEx (fun _ => false) exDb).1 (by decide)
    exact h.1
  · have h := (deleteProject_cascade_spec exDb pidEx
      (fun st => st == .notesOfProject)).2.2.2 .notesOfProject (by decide)
    obtain ⟨e, he⟩ := h
    decide

/-! ## C2: at most one membership per (project, user) pair -/

theorem pairUnique_insert (db : Db) (m : ProjectMember)
    (h : db.findMembership m.project m.user = none) (hU : pairUnique db) :
    pairUnique { db with members := m :: db.members } := by
  unfold pairUnique at *
  rw [List.pairwise_cons]
  refine ⟨?_, hU⟩
  intro m2 hm2 hc
  have hnot := List.find?_eq_none.mp h m2 hm2
  apply hnot
  rw [← hc.1, ← hc.2]
  simp

theorem pairUnique_map (db : Db) (f : ProjectMember → ProjectMember)
    (hf : ∀ x, (f x).project = x.project ∧ (f x).user = x.user)
    (hU : pairUnique db) : pairUnique { db with members := db.members.map f } := by
  unfold pairUnique at *
  refine List.Pairwise.map f ?_ hU
  intro a b hab hc
  apply hab
  constructor
  · have h1 := hc.1
    rw [(hf a).1, (hf b).1] at h1
    exact h1
  · have h2 := hc.2
    rw [(hf a).2, (hf b).2] at h2
    exact h2

theorem pairUnique_filter (db : Db) (q : ProjectMember → Bool) (hU : pairUnique db) :
    pairUnique { db with members := db.members.filter q } :=
  List.Pairwise.sublist (List.filter_sublist _) hU

/-- The store after addProjectMember: unchanged, or extended by one
membership whose (project, user) pair was absent. -/
theorem addProjectMember_state (db : Db) (freshMid : String) (now : Nat)
    (req : AddMemberReq) :
    (addProjectMember db freshMid now req).1 = db ∨
    ∃ m : ProjectMember, db.findMembership m.project m.user = none ∧
      (addProjectMember db freshMid now req).1 = { db with members := m :: db.members } := by
  rcases he : req.email with _ | email
  · left; simp [addProjectMember, he]
  · by_cases he0 : email = ""
    · left; simp [addProjectMember, he, he0]
    · rcases hr : req.role with _ | roleStr
      · left; simp [addProjectMember, he, he0, hr]
      · by_cases hr0 : roleStr = ""
        · left; simp [addProjectMember, he, he0, hr, hr0]
        · by_cases hv : validRoles.contains roleStr = true
          · have hvm : roleStr ∈ validRoles := by simpa using hv
            rcases hfp : db.findProject req.projectId with _ | p
            · left; simp [addProjectMember, he, he0, hr, hr0, hv, hvm, hfp]
            · rcases hfu : db.findUserByEmail (trimStr (toLowerStr email)) with _ | u
              · left; simp [addProjectMember, he, he0, hr, hr0, hv, hvm, hfp, hfu]
              · rcases hfm : db.findMembership req.projectId u.id with _ | m0
                · rcases hpr : Role.ofString? roleStr with _ | r
                  · left
                    simp [addProjectMember, he, he0, hr, hr0, hv, hvm, hfp, hfu, hfm, hpr]
                  · right
                    refine ⟨⟨freshMid, req.projectId, u.id, r, now, req.callerId, 0⟩, hfm, ?_⟩
                    simp [addProjectMember, he, he0, hr, hr0, hv, hvm, hfp, hfu, hfm, hpr]
                · left; simp [addProjectMember, he, he0, hr, hr0, hv, hvm, hfp, hfu, hfm]
          · have hvm : roleStr ∉ validRoles := by simpa using hv
            left; simp [addProjectMember, he, he0, hr, hr0, hv, hvm]

/-- C2: at most one membership exists per (project, user) pair: the invariant
is preserved by addProjectMember, createProject (with a fresh project id),
updateProjectMemberRole, removeProjectMember and deleteProject, and
addProjectMember for a pair that already has a membership fails with 409
leaving the registry unchanged. -/
theorem membership_uniqueness_spec (db : Db) (hU : pairUnique db) :
    (∀ freshMid now req, pairUnique (addProjectMember db freshMid now req).1)
    ∧ (∀ freshMid now (req : AddMemberReq) email roleStr r p u m0,
        req.email = some email → email ≠ "" →
        req.role = some roleStr → Role.ofString? roleStr = some r →
        db.findProject req.projectId = some p →
        db.findUserByEmail (trimStr (toLowerStr email)) = some u →
        db.findMembership req.projectId u.id = some m0 →
        addProjectMember db freshMid now req = (db, .error 409))
    ∧ (∀ freshPid freshMid now f req, (∀ m ∈ db.members, m.project ≠ freshPid) →
        pairUnique (createProject db freshPid freshMid now f req).1)
    ∧ (∀ req, pairUnique (updateProjectMemberRole db req).1)
    ∧ (∀ pid uid, pairUnique (removeProjectMember db pid uid).1)
    ∧ (∀ pid failAt, pairUnique (deleteProject pid failAt db).1) := by
  refine ⟨?_, ?_, ?_, ?_, ?_, ?_⟩
  · intro freshMid now req
    rcases addProjectMember_state db freshMid now req with h | ⟨m, hm, h⟩
    · rw [h]; exact hU
    · rw [h]; exact pairUnique_insert db m hm hU
  · intro freshMid now req email roleStr r p u m0 he he0 hr hparse hfp hfu hfm
    have hs : roleStr = r.toStr := ofString?_eq_toStr hparse
    subst hs
    simp [addProjectMember, he, he0, hr, toStr_ne_empty r, toStr_mem_validRoles r,
      toStr_mem_validRoles' r, hfp, hfu, hfm]
  · intro freshPid freshMid now f req hfresh
    rcases hn : req.name with _ | n
    · simpa [createProject, hn] using hU
    · by_cases h0 : n = ""
      · simpa [createProject, hn, h0] using hU
      · by_cases h1 : trimStr n = ""
        · simpa [createProject, hn, h0, h1] using hU
        · by_cases hf1 : f.projectWrite
          · simpa [createProject, hn, h0, h1, hf1] using hU
          · by_cases hf2 : f.memberWrite
            · simpa [createProject, hn, h0, h1, hf1, hf2] using hU
            · have hstate : (createProject db freshPid freshMid now f req).1 =
                  { db with
                    projects := (⟨freshPid, trimStr n,
                      (match req.description with
                        | some d => trimStr d
                        | none => ""), req.callerId⟩ : Project) :: db.projects,
                    members := (⟨freshMid, freshPid, req.callerId, .admin, now,
                      req.callerId, 0⟩ : ProjectMember) :: db.members } := by
                simp [createProject, hn, h0, h1, hf1, hf2]
              rw [hstate]
              unfold pairUnique at *
              rw [List.pairwise_cons]
              refine ⟨?_, hU⟩
              intro m2 hm2 hc
              exact absurd hc.1.symm (hfresh m2 hm2)
  · intro req
    rcases hr : req.role with _ | roleStr
    · simpa [updateProjectMemberRole, hr] using hU
    · by_cases hr0 : roleStr = ""
      · simpa [updateProjectMemberRole, hr, hr0] using hU
      · by_cases hv : validRoles.contains roleStr = true
        · have hvm : roleStr ∈ validRoles := by simpa using hv
          rcases hfm : db.findMembership req.projectId req.userId with _ | m
          · simpa [updateProjectMemberRole, hr, hr0, hv, hvm, hfm] using hU
          · rcases hpr : Role.ofString? roleStr with _ | r
            · simpa [updateProjectMemberRole, hr, hr0, hv, hvm, hfm, hpr] using hU
            · have hstate : (updateProjectMemberRole db req).1 =
                  { db with members := (db.members.map (fun x =>
                      if x.id == m.id then { x with role := r, version := x.version + 1 }
                      else x)) } := by
                simp [updateProjectMemberRole, hr, hr0, hv, hvm, hfm, hpr]
              rw [hstate]
              refine pairUnique_map db _ ?_ hU
              intro x
              by_cases hx : x.id == m.id <;> simp [hx]
        · have hvm : roleStr ∉ validRoles := by simpa using hv
          simpa [updateProjectMemberRole, hr, hr0, hv, hvm] using hU
  · intro pid uid
    rcases hfm : db.findMembership pid uid with _ | m
    · simpa [removeProjectMember, hfm] using hU
    · have hstate : (removeProjectMember db pid uid).1 =
          { db with members := db.members.filter (fun x => !(x.id == m.id)) } := by
        simp [removeProjectMember, hfm]
      rw [hstate]
      exact pairUnique_filter db _ hU
  · intro pid failAt
    by_cases hall : ∀ st, failAt st = false
    · rcases hfp : db.findProject pid with _ | p
      · simpa [deleteProject, hfp] using hU
      · have hstate := deleteProject_success_eq db pid failAt hall p hfp
        have h1 : (deleteProject pid failAt db).1 =
            { db with
              projects := db.projects.filter (fun q => !(q.id == pid)),
              members := db.members.filter (fun m => !(m.project == pid)),
              tasks := db.tasks.filter (fun t => !(t.project == pid)),
              subtasks := db.subtasks.filter (fun s => !((taskIdsOf db pid).contains s.task)),
              notes := db.notes.filter (fun n => !(n.project == pid)) } :=
          congrArg Prod.fst hstate
        rw [h1]
        exact pairUnique_filter
          { db with
            projects := db.projects.filter (fun q => !(q.id == pid)),
            tasks := db.tasks.filter (fun t => !(t.project == pid)),
            subtasks := db.subtasks.filter (fun s => !((taskIdsOf db pid).contains s.task)),
            notes := db.notes.filter (fun n => !(n.project == pid)) } _ hU
    · rcases hfp : db.findProject pid with _ | p
      · simpa [deleteProject, hfp] using hU
      · have h1 : (deleteProject pid failAt db).1 = db := by
          rw [deleteProject, hfp, runCascade_fail pid failAt db hall]
        rw [h1]; exact hU

/-- Witness for C2: the concrete store satisfies the invariant, re-adding
Bob is rejected with 409 and the registry is unchanged. -/
theorem membership_uniqueness_spec_witness :
    addProjectMember exDb "m9" 7
      { projectId := pidEx, email := some "b@x.com", role := some "member",
        callerId := "u1" } = (exDb, .error 409) :=
  (membership_uniqueness_spec exDb (by unfold pairUnique; decide)).2.1 "m9" 7
    { projectId := pidEx, email := some "b@x.com", role := some "member",
      callerId := "u1" }
    "b@x.com" "member" .member exProject exUserBob exMemberBob
    rfl (by decide) rfl (by decide) (by decide) (by decide) (by decide)

/-! ## C3: createProject is atomic -/

/-- C3: for a valid non-empty name, createProject creates, inside one
transaction, exactly one Project owned by the caller and exactly one
ProjectMembership for the caller with role admin in that project; if either
write fails, neither the Project nor the Membership persists and an error
propagates. -/
theorem createProject_atomic_spec (db : Db) (freshPid freshMid : String)
    (now : Nat) (f : CreateFaults) (req : CreateProjectReq) (n : String)
    (hname : req.name = some n) (hne : trimStr n ≠ "") :
    (f.projectWrite = false → f.memberWrite = false →
      ∃ p m, createProject db freshPid freshMid now f req =
          ({ db with projects := p :: db.projects, members := m :: db.members }, .ok p)
        ∧ p.id = freshPid ∧ p.owner = req.callerId ∧ p.name = trimStr n
        ∧ m.project = freshPid ∧ m.user = req.callerId ∧ m.role = .admin
        ∧ m.addedBy = req.callerId)
    ∧ (f.projectWrite = true ∨ f.memberWrite = true →
        ∃ e, createProject db freshPid freshMid now f req = (db, .error e)) := by
  have h0 : n ≠ "" := by
    intro h
    apply hne
    rw [h]
    rfl
  constructor
  · intro hf1 hf2
    refine ⟨⟨freshPid, trimStr n,
        (match req.description with | some d => trimStr d | none => ""),
        req.callerId⟩,
      ⟨freshMid, freshPid, req.callerId, .admin, now, req.callerId, 0⟩,
      ?_, rfl, rfl, rfl, rfl, rfl, rfl, rfl⟩
    simp [createProject, hname, h0, hne, hf1, hf2]
  · intro hf
    refine ⟨500, ?_⟩
    rcases hf with hf | hf
    · simp [createProject, hname, h0, hne, hf]
    · by_cases hf1 : f.projectWrite = true
      · simp [createProject, hname, h0, hne, hf1]
      · simp [createProject, hname, h0, hne, hf1, hf]

/-- Witness for C3: a clean creation and an aborted one on the concrete
store. -/
theorem createProject_atomic_spec_witness :
    (∃ p m, createProject exDb "cccccccccccccccccccccccc" "m7" 9
        { projectWrite := false, memberWrite := false }
        { name := some "Site Redesign", description := none, callerId := "u1" } =
          ({ exDb with projects := p :: exDb.projects, members := m :: exDb.members }, .ok p)
      ∧ p.id = "cccccccccccccccccccccccc" ∧ p.owner = "u1"
      ∧ p.name = trimStr "Site Redesign"
      ∧ m.project = "cccccccccccccccccccccccc" ∧ m.user = "u1" ∧ m.role = .admin
      ∧ m.addedBy = "u1")
    ∧ (∃ e, createProject exDb "cccccccccccccccccccccccc" "m7" 9
        { projectWrite := false, memberWrite := true }
        { name := some "Site Redesign", description := none, callerId := "u1" } =
          (exDb, .error e)) := by
  constructor
  · exact (createProject_atomic_spec exDb "cccccccccccccccccccccccc" "m7" 9
      { projectWrite := false, memberWrite := false }
      { name := some "Site Redesign", description := none, callerId := "u1" }
      "Site Redesign" rfl (by decide)).1 rfl rfl
  · exact (createProject_atomic_spec exDb "cccccccccccccccccccccccc" "m7" 9
      { projectWrite := false, memberWrite := true }
      { name := some "Site Redesign", description := none, callerId := "u1" }
      "Site Redesign" rfl (by decide)).2 (Or.inr rfl)

/-! ## C9: note mutations are gated by the system role only -/

theorem runGuards_note_admin (db : Db) (c : Ctx) (u : User)
    (hcu : c.user = some u) (hadmin : u.role = some "admin") :
    runGuards db [Guard.jwt, Guard.roles ["admin"]] c = .ok c := by
  simp [runGuards, List.foldlM, runGuard, verifyJWTRun, verifyRolesRun, bind,
    Except.bind, pure, Except.pure, hcu, hadmin]

theorem runGuards_note_nonadmin (db : Db) (c : Ctx) (u : User)
    (hcu : c.user = some u) (hrole : u.role ≠ some "admin") :
    runGuards db [Guard.jwt, Guard.roles ["admin"]] c = .error 403 := by
  rcases hr : u.role with _ | r
  · simp [runGuards, List.foldlM, runGuard, verifyJWTRun, verifyRolesRun, bind,
      Except.bind, hcu, hr]
  · have hne : r ≠ "admin" := by
      intro h
      exact hrole (by rw [hr, h])
    by_cases h0 : r = ""
    · simp [runGuards, List.foldlM, runGuard, verifyJWTRun, verifyRolesRun, bind,
        Except.bind, hcu, hr, h0]
    · simp [runGuards, List.foldlM, runGuard, verifyJWTRun, verifyRolesRun, bind,
        Except.bind, hcu, hr, h0, hne]

/-- C9: the note create, update and delete routes carry no project-membership
guard, only verifyJWT and verifyRoles(['admin']); a system admin who is a
member of no project passes all three guard chains and the handlers succeed
against existing data, while a project member whose system role is not admin
is rejected with 403 on all three. -/
theorem note_routes_admin_only_spec (db : Db) (u : User) (pid : String)
    (hadmin : u.role = some "admin")
    (hnomem : ∀ m ∈ db.members, m.user ≠ u.id) :
    (Guard.projectMembershipG ∉ noteCreateGuards
      ∧ Guard.projectMembershipG ∉ noteUpdateGuards
      ∧ Guard.projectMembershipG ∉ noteDeleteGuards)
    ∧ (∀ c : Ctx, c.user = some u →
        runGuards db noteCreateGuards c = .ok c
        ∧ runGuards db noteUpdateGuards c = .ok c
        ∧ runGuards db noteDeleteGuards c = .ok c)
    ∧ (∀ freshId ttl content p, db.findProject pid = some p → ttl ≠ "" →
        trimStr ttl ≠ "" →
        ∃ nt, createNoteEndpoint db
            { user := some u, projectId := some pid, projectMembership := none }
            freshId (some ttl) content
          = ({ db with notes := nt :: db.notes }, .ok nt)
          ∧ nt.createdBy = u.id ∧ nt.project = pid)
    ∧ (∀ nid content n2, db.findNote nid pid = some n2 →
        ∃ nt, (updateNoteEndpoint db
            { user := some u, projectId := some pid, projectMembership := none }
            nid none content).2 = .ok nt)
    ∧ (∀ nid n2, db.findNote nid pid = some n2 →
        deleteNoteEndpoint db
            { user := some u, projectId := some pid, projectMembership := none } nid
          = ({ db with notes := db.notes.filter (fun x => !(x.id == n2.id)) }, .ok ()))
    ∧ (∀ (u2 : User) (m : ProjectMember) (c : Ctx), m ∈ db.members →
        m.user = u2.id → m.project = pid → u2.role ≠ some "admin" →
        c.user = some u2 →
        runGuards db noteCreateGuards c = .error 403
        ∧ runGuards db noteUpdateGuards c = .error 403
        ∧ runGuards db noteDeleteGuards c = .error 403) := by
  refine ⟨⟨by decide, by decide, by decide⟩, ?_, ?_, ?_, ?_, ?_⟩
  · intro c hcu
    exact ⟨runGuards_note_admin db c u hcu hadmin,
      runGuards_note_admin db c u hcu hadmin,
      runGuards_note_admin db c u hcu hadmin⟩
  · intro freshId ttl content p hfp h0 htrim
    refine ⟨⟨freshId, pid, trimStr ttl,
      (match content with | some cnt => trimStr cnt | none => ""), u.id⟩, ?_, rfl, rfl⟩
    rw [createNoteEndpoint]
    simp only [noteCreateGuards]
    rw [runGuards_note_admin db _ u rfl hadmin]
    simp [createNote, h0, htrim, hfp]
  · intro nid content n2 hfn
    rw [updateNoteEndpoint]
    simp only [noteUpdateGuards]
    rw [runGuards_note_admin db _ u rfl hadmin]
    rcases content with _ | cnt
    · exact ⟨n2, by simp [updateNote, hfn]⟩
    · exact ⟨{ n2 with content := trimStr cnt }, by simp [updateNote, hfn]⟩
  · intro nid n2 hfn
    rw [deleteNoteEndpoint]
    simp only [noteDeleteGuards]
    rw [runGuards_note_admin db _ u rfl hadmin]
    simp [deleteNote, hfn]
  · intro u2 m c hm hmu hmp hrole hcu
    exact ⟨runGuards_note_nonadmin db c u2 hcu hrole,
      runGuards_note_nonadmin db c u2 hcu hrole,
      runGuards_note_nonadmin db c u2 hcu hrole⟩

/-- Witness for C9: Alice the system admin, member of no project, creates a
note in Bob's project; Bob the member is rejected with 403. -/
theorem note_routes_admin_only_spec_witness :
    (∃ nt, createNoteEndpoint exDb
        { user := some exUserAdmin, projectId := some pidEx, projectMembership := none }
        "n9" (some "Minutes") none
      = ({ exDb with notes := nt :: exDb.notes }, .ok nt)
      ∧ nt.createdBy = exUserAdmin.id ∧ nt.project = pidEx)
    ∧ runGuards exDb noteCreateGuards
        { user := some exUserBob, projectId := some pidEx, projectMembership := none }
      = .error 403 := by
  constructor
  · exact (note_routes_admin_only_spec exDb exUserAdmin pidEx rfl (by decide)).2.2.1
      "n9" "Minutes" none exProject (by decide) (by decide) (by decide)
  · exact ((note_routes_admin_only_spec exDb exUserAdmin pidEx rfl (by decide)).2.2.2.2.2
      exUserBob exMemberBob
      { user := some exUserBob, projectId := some pidEx, projectMembership := none }
      (by decide) rfl rfl (by decide) rfl).1

/-! ## C8: two concurrent role updates under optimistic locking -/

theorem raceRun_target (sched : List Bool) :
    ∀ s : RaceState, (raceRun s sched).wa.target = s.wa.target
      ∧ (raceRun s sched).wb.target = s.wb.target := by
  induction sched with
  | nil => intro s; exact ⟨rfl, rfl⟩
  | cons who rest ih =>
    intro s
    have h1 : raceRun s (who :: rest) = raceRun (raceStep s who) rest := rfl
    rw [h1]
    have h2 := ih (raceStep s who)
    have h3 : (raceStep s who).wa.target = s.wa.target := by
      cases who <;> cases h : s.wa.phase <;>
        simp [raceStep, stepWriter, h] <;> split <;> simp
    have h4 : (raceStep s who).wb.target = s.wb.target := by
      cases who <;> cases h : s.wb.phase <;>
        simp [raceStep, stepWriter, h] <;> split <;> simp
    exact ⟨h2.1.trans h3, h2.2.trans h4⟩

theorem raceInv_init (r0 : Role) (v0 : Nat) (ta tb : Role) :
    raceInv r0 v0 (raceInit r0 v0 ta tb) := by
  refine ⟨by simp [raceInit, doneCount], fun _ => rfl, ?_, ?_, ?_⟩
  · rintro (h | h) <;> simp [raceInit] at h
  · intro v h; simp [raceInit] at h
  · intro v h; simp [raceInit] at h

theorem raceInv_step (r0 : Role) (v0 : Nat) (s : RaceState) (who : Bool)
    (h : raceInv r0 v0 s) : raceInv r0 v0 (raceStep s who) := by
  obtain ⟨h1, h2, h3, h4, h5⟩ := h
  cases who
  · -- writer B takes a step
    cases hpb : s.wb.phase with
    | start =>
      have hstep : raceStep s false =
          { s with wb := { s.wb with phase := .fetched s.doc.version } } := by
        simp [raceStep, stepWriter, hpb]
      rw [hstep]
      refine ⟨by simpa [doneCount, hpb] using h1, by simpa [doneCount, hpb] using h2,
        ?_, ?_, ?_⟩
      · intro hdone
        refine h3 ?_
        simpa [hpb] using hdone
      · intro v hv
        have := h4 v (by simpa using hv)
        refine ⟨this.1, fun hne => ?_⟩
        have h6 := this.2 hne
        rw [hpb] at h6
        cases h6.1
      · intro v hv
        simp at hv
        subst hv
        exact ⟨Nat.le_refl _, fun hne => absurd rfl hne⟩
    | fetched v =>
      by_cases heq : s.doc.version = v
      · -- B's save succeeds: commit
        have hstep : raceStep s false = { s with doc := { role := s.wb.target, version := v + 1 }, wb := { s.wb with phase := .done } } := by
          simp [raceStep, stepWriter, hpb, heq]
        rw [hstep]
        have hwbnotdone : ¬(s.wb.phase = .done) := by rw [hpb]; intro hc; cases hc
        refine ⟨?_, ?_, ?_, ?_, ?_⟩
        · simp only [doneCount]
          simp only [doneCount] at h1
          simp [hpb, hwbnotdone] at h1
          simp [heq.symm.trans h1]
          ring
        · intro hd
          simp [doneCount] at hd
        · intro _
          right
          rfl
        · intro v2 hv2
          have := h4 v2 (by simpa using hv2)
          rcases Nat.eq_or_lt_of_le this.1 with he2 | hlt
          · subst he2
            rw [← heq]
            exact ⟨Nat.le_succ _, fun _ => ⟨rfl, rfl⟩⟩
          · have h6 := this.2 (Nat.ne_of_lt hlt)
            rw [hpb] at h6
            cases h6.1
        · intro v2 hv2
          simp at hv2
      · -- B's save fails with a version conflict: back to start
        have hstep : raceStep s false = { s with wb := { s.wb with phase := .start } } := by
          simp [raceStep, stepWriter, hpb, heq]
        rw [hstep]
        have hwbnotdone : ¬(s.wb.phase = .done) := by rw [hpb]; intro hc; cases hc
        refine ⟨by simpa [doneCount, hpb] using h1, by simpa [doneCount, hpb] using h2,
          ?_, ?_, ?_⟩
        · intro hdone
          refine h3 ?_
          simpa [hpb] using hdone
        · intro v2 hv2
          have := h4 v2 (by simpa using hv2)
          refine ⟨this.1, fun hne => ?_⟩
          have h6 := this.2 hne
          rw [hpb] at h6
          cases h6.1
        · intro v2 hv2
          simp at hv2
    | done =>
      have hstep : raceStep s false = s := by
        simp [raceStep, stepWriter, hpb]
      rw [hstep]
      exact ⟨h1, h2, h3, h4, h5⟩
  · -- writer A takes a step (mirror of the B cases)
    cases hpa : s.wa.phase with
    | start =>
      have hstep : raceStep s true =
          { s with wa := { s.wa with phase := .fetched s.doc.version } } := by
        simp [raceStep, stepWriter, hpa]
      rw [hstep]
      refine ⟨by simpa [doneCount, hpa] using h1, by simpa [doneCount, hpa] using h2,
        ?_, ?_, ?_⟩
      · intro hdone
        refine h3 ?_
        simpa [hpa] using hdone
      · intro v hv
        simp at hv
        subst hv
        exact ⟨Nat.le_refl _, fun hne => absurd rfl hne⟩
      · intro v hv
        have := h5 v (by simpa using hv)
        refine ⟨this.1, fun hne => ?_⟩
        have h6 := this.2 hne
        rw [hpa] at h6
        cases h6.1
    | fetched v =>
      by_cases heq : s.doc.version = v
      · have hstep : raceStep s true = { s with doc := { role := s.wa.target, version := v + 1 }, wa := { s.wa with phase := .done } } := by
          simp [raceStep, stepWriter, hpa, heq]
        rw [hstep]
        have hwanotdone : ¬(s.wa.phase = .done) := by rw [hpa]; intro hc; cases hc
        refine ⟨?_, ?_, ?_, ?_, ?_⟩
        · simp only [doneCount]
          simp only [doneCount] at h1
          simp [hpa, hwanotdone] at h1
          simp [heq.symm.trans h1]
          ring
        · intro hd
          simp [doneCount] at hd
        · intro _
          left
          rfl
        · intro v2 hv2
          simp at hv2
        · intro v2 hv2
          have := h5 v2 (by simpa using hv2)
          rcases Nat.eq_or_lt_of_le this.1 with he2 | hlt
          · subst he2
            rw [← heq]
            exact ⟨Nat.le_succ _, fun _ => ⟨rfl, rfl⟩⟩
          · have h6 := this.2 (Nat.ne_of_lt hlt)
            rw [hpa] at h6
            cases h6.1
      · have hstep : raceStep s true = { s with wa := { s.wa with phase := .start } } := by
          simp [raceStep, stepWriter, hpa, heq]
        rw [hstep]
        refine ⟨by simpa [doneCount, hpa] using h1, by simpa [doneCount, hpa] using h2,
          ?_, ?_, ?_⟩
        · intro hdone
          refine h3 ?_
          simpa [hpa] using hdone
        · intro v2 hv2
          simp at hv2
        · intro v2 hv2
          have := h5 v2 (by simpa using hv2)
          refine ⟨this.1, fun hne => ?_⟩
          have h6 := this.2 hne
          rw [hpa] at h6
          cases h6.1
    | done =>
      have hstep : raceStep s true = s := by
        simp [raceStep, stepWriter, hpa]
      rw [hstep]
      exact ⟨h1, h2, h3, h4, h5⟩

theorem raceInv_run (r0 : Role) (v0 : Nat) (sched : List Bool) :
    ∀ s : RaceState, raceInv r0 v0 s → raceInv r0 v0 (raceRun s sched) := by
  induction sched with
  | nil => intro s h; exact h
  | cons who rest ih =>
    intro s h
    exact ih (raceStep s who) (raceInv_step r0 v0 s who h)

/-- C8: in every interleaving of two concurrent role updates with targets
`ta` and `tb` under the optimistic-locking retry protocol, when both updates
have committed the stored role is one of the two submitted values; and
whenever the B writer holds a stale fetch (its save would fail), the A
writer has already committed and the store holds A's value, so B's failing
save followed by its re-fetch observes the winner's persisted value before
reapplying — and symmetrically with the writers swapped. -/
theorem role_update_race_spec (r0 : Role) (v0 : Nat) (ta tb : Role)
    (sched : List Bool) :
    ((raceRun (raceInit r0 v0 ta tb) sched).wa.phase = .done →
      (raceRun (raceInit r0 v0 ta tb) sched).wb.phase = .done →
      (raceRun (raceInit r0 v0 ta tb) sched).doc.role = ta ∨
        (raceRun (raceInit r0 v0 ta tb) sched).doc.role = tb)
    ∧ (∀ v, (raceRun (raceInit r0 v0 ta tb) sched).wb.phase = .fetched v →
        v ≠ (raceRun (raceInit r0 v0 ta tb) sched).doc.version →
        (raceRun (raceInit r0 v0 ta tb) sched).wa.phase = .done
        ∧ (raceRun (raceInit r0 v0 ta tb) sched).doc.role = ta
        ∧ (raceRun (raceRun (raceInit r0 v0 ta tb) sched) [false, false]).doc.role = ta
        ∧ (raceRun (raceRun (raceInit r0 v0 ta tb) sched) [false, false]).wb.phase
            = .fetched (raceRun (raceInit r0 v0 ta tb) sched).doc.version)
    ∧ (∀ v, (raceRun (raceInit r0 v0 ta tb) sched).wa.phase = .fetched v →
        v ≠ (raceRun (raceInit r0 v0 ta tb) sched).doc.version →
        (raceRun (raceInit r0 v0 ta tb) sched).wb.phase = .done
        ∧ (raceRun (raceInit r0 v0 ta tb) sched).doc.role = tb
        ∧ (raceRun (raceRun (raceInit r0 v0 ta tb) sched) [true, true]).doc.role = tb
        ∧ (raceRun (raceRun (raceInit r0 v0 ta tb) sched) [true, true]).wa.phase
            = .fetched (raceRun (raceInit r0 v0 ta tb) sched).doc.version) := by
  obtain ⟨h1, h2, h3, h4, h5⟩ :=
    raceInv_run r0 v0 sched (raceInit r0 v0 ta tb) (raceInv_init r0 v0 ta tb)
  have hta : (raceRun (raceInit r0 v0 ta tb) sched).wa.target = ta :=
    (raceRun_target sched (raceInit r0 v0 ta tb)).1
  have htb : (raceRun (raceInit r0 v0 ta tb) sched).wb.target = tb :=
    (raceRun_target sched (raceInit r0 v0 ta tb)).2
  set S := raceRun (raceInit r0 v0 ta tb) sched with hS
  refine ⟨?_, ?_, ?_⟩
  · intro hA _
    rcases h3 (Or.inl hA) with h | h
    · exact Or.inl (h.trans hta)
    · exact Or.inr (h.trans htb)
  · intro v hfv hne
    have h6 := (h5 v hfv).2 hne
    have hne' : S.doc.version ≠ v := fun h => hne h.symm
    have hrun : raceRun S [false, false] =
        { S with wb := { S.wb with phase := .fetched S.doc.version } } := by
      have hs1 : raceStep S false = { S with wb := { S.wb with phase := .start } } := by
        simp [raceStep, stepWriter, hfv, hne']
      have hs2 : raceStep { S with wb := { S.wb with phase := .start } } false =
          { S with wb := { S.wb with phase := .fetched S.doc.version } } := by
        simp [raceStep, stepWriter]
      show raceStep (raceStep S false) false = _
      rw [hs1, hs2]
    refine ⟨h6.1, h6.2.trans hta, ?_, ?_⟩
    · rw [hrun]
      exact h6.2.trans hta
    · rw [hrun]
  · intro v hfv hne
    have h6 := (h4 v hfv).2 hne
    have hne' : S.doc.version ≠ v := fun h => hne h.symm
    have hrun : raceRun S [true, true] =
        { S with wa := { S.wa with phase := .fetched S.doc.version } } := by
      have hs1 : raceStep S true = { S with wa := { S.wa with phase := .start } } := by
        simp [raceStep, stepWriter, hfv, hne']
      have hs2 : raceStep { S with wa := { S.wa with phase := .start } } true =
          { S with wa := { S.wa with phase := .fetched S.doc.version } } := by
        simp [raceStep, stepWriter]
      show raceStep (raceStep S true) true = _
      rw [hs1, hs2]
    refine ⟨h6.1, h6.2.trans htb, ?_, ?_⟩
    · rw [hrun]
      exact h6.2.trans htb
    · rw [hrun]

/-- Witness for C8: the schedule A-fetch, B-fetch, A-save (commit), B-save
(version conflict), B-refetch, B-save (commit): both updates complete and
the final role is one of the two submitted values; after the prefix in
which A commits, B's fetch is stale and B observes A's persisted value. -/
theorem role_update_race_spec_witness :
    ((raceRun (raceInit .member 0 .admin .project_admin)
        [true, false, true, false, false, false]).doc.role = .admin ∨
      (raceRun (raceInit .member 0 .admin .project_admin)
        [true, false, true, false, false, false]).doc.role = .project_admin)
    ∧ ((raceRun (raceInit Role.member 0 .admin .project_admin)
          [true, false, true]).wa.phase = .done
        ∧ (raceRun (raceInit Role.member 0 .admin .project_admin)
          [true, false, true]).doc.role = .admin
        ∧ (raceRun (raceRun (raceInit Role.member 0 .admin .project_admin)
            [true, false, true]) [false, false]).doc.role = .admin
        ∧ (raceRun (raceRun (raceInit Role.member 0 .admin .project_admin)
            [true, false, true]) [false, false]).wb.phase
          = .fetched (raceRun (raceInit Role.member 0 .admin .project_admin)
            [true, false, true]).doc.version) := by
  constructor
  · exact (role_update_race_spec .member 0 .admin .project_admin
      [true, false, true, false, false, false]).1 (by decide) (by decide)
  · exact (role_update_race_spec .member 0 .admin .project_admin
      [true, false, true]).2.1 0 (by decide) (by decide)

end ProjectCamp
